import Mathlib

/-!
Verification of the Utho Object Storage client (`src/utho-client.ts`, types in
`src/types.ts`). The definitions below are a shallow embedding of the
TypeScript source: JavaScript strings are Lean `String`s (with their `List
Char` contents used for the path manipulation), JavaScript `undefined`-able
values are `Option`s, Node `Buffer`s are byte lists, multipart form bodies are
ordered lists of parts, and JavaScript object literals used as header maps are
association lists where a later binding for a key overwrites an earlier one
(the semantics of object spread).
-/

namespace UthoOS

/-- Embedding of JavaScript `String.prototype.split` with a single-character
separator, on the character list of the string. `split` of the empty string
is `[""]`; separators at the ends produce empty segments, exactly as in JS. -/
def splitOnChar (sep : Char) : List Char → List (List Char)
  | [] => [[]]
  | c :: cs =>
    let r := splitOnChar sep cs
    if c = sep then [] :: r
    else (c :: r.headD []) :: r.tail

/-- Embedding of JavaScript `Array.prototype.join` with a single-character
separator. -/
def intercalateChar (sep : Char) : List (List Char) → List Char
  | [] => []
  | [x] => x
  | x :: y :: t => x ++ sep :: intercalateChar sep (y :: t)

/-- Specification-side description: the substring after the last occurrence
of `sep` (the whole string when `sep` does not occur). -/
def afterLast (sep : Char) : List Char → List Char
  | [] => []
  | c :: cs =>
    if sep ∈ cs then afterLast sep cs
    else if c = sep then cs else c :: cs

/-- Specification-side description: the substring before the last occurrence
of `sep` (empty when `sep` does not occur). -/
def beforeLast (sep : Char) : List Char → List Char
  | [] => []
  | c :: cs => if sep ∈ cs then c :: beforeLast sep cs else []

theorem splitOnChar_cons_of_eq {sep c : Char} (cs : List Char) (h : c = sep) :
    splitOnChar sep (c :: cs) = [] :: splitOnChar sep cs := by
  simp [splitOnChar, h]

theorem splitOnChar_cons_of_ne {sep c : Char} (cs : List Char) (h : ¬ c = sep) :
    splitOnChar sep (c :: cs) =
      (c :: (splitOnChar sep cs).headD []) :: (splitOnChar sep cs).tail := by
  simp [splitOnChar, h]

theorem afterLast_cons_of_mem {sep : Char} (c : Char) {cs : List Char} (h : sep ∈ cs) :
    afterLast sep (c :: cs) = afterLast sep cs := by
  simp [afterLast, h]

theorem afterLast_cons_of_not_mem_eq {sep c : Char} {cs : List Char}
    (h : sep ∉ cs) (hc : c = sep) : afterLast sep (c :: cs) = cs := by
  simp [afterLast, h, hc]

theorem afterLast_cons_of_not_mem_ne {sep c : Char} {cs : List Char}
    (h : sep ∉ cs) (hc : ¬ c = sep) : afterLast sep (c :: cs) = c :: cs := by
  simp [afterLast, h, hc]

theorem beforeLast_cons_of_mem {sep : Char} (c : Char) {cs : List Char} (h : sep ∈ cs) :
    beforeLast sep (c :: cs) = c :: beforeLast sep cs := by
  simp [beforeLast, h]

theorem beforeLast_cons_of_not_mem {sep : Char} (c : Char) {cs : List Char}
    (h : sep ∉ cs) : beforeLast sep (c :: cs) = [] := by
  simp [beforeLast, h]

theorem splitOnChar_ne_nil (sep : Char) (l : List Char) : splitOnChar sep l ≠ [] := by
  cases l with
  | nil => simp [splitOnChar]
  | cons c cs =>
    by_cases h : c = sep
    · rw [splitOnChar_cons_of_eq cs h]; simp
    · rw [splitOnChar_cons_of_ne cs h]; simp

theorem splitOnChar_of_not_mem (sep : Char) (l : List Char) (h : sep ∉ l) :
    splitOnChar sep l = [l] := by
  induction l with
  | nil => rfl
  | cons c cs ih =>
    have hc : ¬ c = sep := fun hc => h (hc ▸ List.mem_cons_self c cs)
    have hcs : sep ∉ cs := fun hm => h (List.mem_cons_of_mem c hm)
    rw [splitOnChar_cons_of_ne cs hc, ih hcs]
    simp

theorem two_le_length_splitOnChar (sep : Char) (l : List Char) (h : sep ∈ l) :
    2 ≤ (splitOnChar sep l).length := by
  induction l with
  | nil => cases h
  | cons c cs ih =>
    by_cases hc : c = sep
    · rw [splitOnChar_cons_of_eq cs hc]
      have h1 : 0 < (splitOnChar sep cs).length :=
        List.length_pos.mpr (splitOnChar_ne_nil sep cs)
      simp only [List.length_cons]
      omega
    · have hm : sep ∈ cs := by
        rcases List.mem_cons.mp h with h' | h'
        · exact absurd h'.symm hc
        · exact h'
      have h2 := ih hm
      rw [splitOnChar_cons_of_ne cs hc]
      simp only [List.length_cons, List.length_tail]
      omega

theorem getLastD_splitOnChar (sep : Char) (l : List Char) :
    (splitOnChar sep l).getLastD [] = afterLast sep l := by
  induction l with
  | nil => rfl
  | cons c cs ih =>
    by_cases hc : c = sep
    · by_cases hm : sep ∈ cs
      · rw [splitOnChar_cons_of_eq cs hc, afterLast_cons_of_mem c hm,
          List.getLastD_cons]
        cases hr : splitOnChar sep cs with
        | nil => exact absurd hr (splitOnChar_ne_nil sep cs)
        | cons y t =>
          rw [hr] at ih
          rw [List.getLastD_cons] at ih ⊢
          exact ih
      · rw [splitOnChar_cons_of_eq cs hc, splitOnChar_of_not_mem sep cs hm,
          afterLast_cons_of_not_mem_eq hm hc]
        simp [List.getLastD_cons]
    · by_cases hm : sep ∈ cs
      · have h2 := two_le_length_splitOnChar sep cs hm
        cases hr : splitOnChar sep cs with
        | nil => simp [hr] at h2
        | cons y t =>
          cases t with
          | nil => rw [hr] at h2; simp at h2
          | cons z w =>
            rw [hr] at ih
            rw [splitOnChar_cons_of_ne cs hc, hr, afterLast_cons_of_mem c hm]
            simp only [List.headD_cons, List.tail_cons]
            rw [List.getLastD_cons, List.getLastD_cons] at ih ⊢
            exact ih
      · rw [splitOnChar_cons_of_ne cs hc, splitOnChar_of_not_mem sep cs hm,
          afterLast_cons_of_not_mem_ne hm hc]
        simp [List.getLastD_cons]

theorem intercalateChar_cons_cons (sep : Char) (c : Char) (y : List Char)
    (l : List (List Char)) :
    intercalateChar sep ((c :: y) :: l) = c :: intercalateChar sep (y :: l) := by
  cases l with
  | nil => rfl
  | cons z w => simp [intercalateChar]

theorem intercalate_dropLast_splitOnChar (sep : Char) (l : List Char) :
    intercalateChar sep (splitOnChar sep l).dropLast = beforeLast sep l := by
  induction l with
  | nil => rfl
  | cons c cs ih =>
    by_cases hc : c = sep
    · by_cases hm : sep ∈ cs
      · have h2 := two_le_length_splitOnChar sep cs hm
        cases hr : splitOnChar sep cs with
        | nil => simp [hr] at h2
        | cons y t =>
          cases t with
          | nil => rw [hr] at h2; simp at h2
          | cons z w =>
            rw [hr] at ih
            rw [splitOnChar_cons_of_eq cs hc, hr, beforeLast_cons_of_mem c hm]
            rw [List.dropLast_cons₂] at ih
            rw [List.dropLast_cons₂, List.dropLast_cons₂]
            simp only [intercalateChar, List.nil_append]
            rw [ih, hc]
      · rw [splitOnChar_cons_of_eq cs hc, splitOnChar_of_not_mem sep cs hm,
          beforeLast_cons_of_not_mem c hm]
        simp [intercalateChar]
    · by_cases hm : sep ∈ cs
      · have h2 := two_le_length_splitOnChar sep cs hm
        cases hr : splitOnChar sep cs with
        | nil => simp [hr] at h2
        | cons y t =>
          cases t with
          | nil => rw [hr] at h2; simp at h2
          | cons z w =>
            rw [hr] at ih
            rw [splitOnChar_cons_of_ne cs hc, hr, beforeLast_cons_of_mem c hm]
            simp only [List.headD_cons, List.tail_cons]
            rw [List.dropLast_cons₂] at ih
            rw [List.dropLast_cons₂, intercalateChar_cons_cons, ih]
      · rw [splitOnChar_cons_of_ne cs hc, splitOnChar_of_not_mem sep cs hm,
          beforeLast_cons_of_not_mem c hm]
        simp [intercalateChar]

theorem afterLast_eq_nil_iff (sep : Char) (l : List Char) :
    afterLast sep l = [] ↔ l = [] ∨ l.getLast? = some sep := by
  induction l with
  | nil => simp [afterLast]
  | cons c cs ih =>
    by_cases hm : sep ∈ cs
    · obtain ⟨d, ds, rfl⟩ : ∃ d ds, cs = d :: ds := by
        cases cs with
        | nil => cases hm
        | cons d ds => exact ⟨d, ds, rfl⟩
      rw [afterLast_cons_of_mem c hm, ih]
      simp [List.getLast?_cons_cons]
    · by_cases hc : c = sep
      · rw [afterLast_cons_of_not_mem_eq hm hc]
        cases cs with
        | nil => simp [hc]
        | cons d ds =>
          constructor
          · intro h; cases h
          · intro h
            rcases h with h | h
            · cases h
            · exfalso
              rw [List.getLast?_cons_cons] at h
              exact hm (List.mem_of_mem_getLast? h)
      · rw [afterLast_cons_of_not_mem_ne hm hc]
        constructor
        · intro h; cases h
        · intro h
          rcases h with h | h
          · cases h
          · exfalso
            cases cs with
            | nil =>
              rw [List.getLast?_singleton] at h
              exact hc (Option.some.inj h)
            | cons d ds =>
              rw [List.getLast?_cons_cons] at h
              exact hm (List.mem_of_mem_getLast? h)

/-- JavaScript string truthiness for an `undefined`-able string: `undefined`
and the empty string are falsy. -/
def truthyS : Option String → Bool
  | none => false
  | some s => !(s = "")

/-- Embedding of the JavaScript `||` operator on an `undefined`-able string
with a string fallback. -/
def jsOrStr (a : Option String) (dflt : String) : String :=
  match a with
  | some s => if s = "" then dflt else s
  | none => dflt

/-- Embedding of the JavaScript `||` operator on an `undefined`-able number
with a numeric fallback (`0` is falsy). -/
def jsOrNat (a : Option Nat) (dflt : Nat) : Nat :=
  match a with
  | some n => if n = 0 then dflt else n
  | none => dflt

/-- Key lookup in a JavaScript object modelled as an association list where a
later binding overwrites an earlier one (object spread semantics). -/
def objGet (m : List (String × String)) (k : String) : Option String :=
  match m with
  | [] => none
  | (k', v) :: rest =>
    match objGet rest k with
    | some v' => some v'
    | none => if k' = k then some v else none

/-- ASCII lowercasing of a character, for case-insensitive HTTP header
comparison. -/
def lowerChar (c : Char) : Char :=
  if c.isUpper then Char.ofNat (c.toNat + 32) else c

/-- ASCII lowercasing of a string. -/
def lowerStr (s : String) : String :=
  String.mk (s.data.map lowerChar)

/-- Case-insensitive header lookup (HTTP header names are case-insensitive),
still with later bindings overwriting earlier ones. -/
def getHeaderCI (m : List (String × String)) (k : String) : Option String :=
  match m with
  | [] => none
  | (k', v) :: rest =>
    match getHeaderCI rest k with
    | some v' => some v'
    | none => if lowerStr k' = lowerStr k then some v else none

/-- Whether a header map binds the given (exact-case) key. -/
def hasHeader (m : List (String × String)) (k : String) : Bool :=
  m.any (fun p => p.1 = k)

/-- `UthoConfig` from `types.ts`: all credential fields optional; `timeout`
and `endpoint` optional. -/
structure UthoConfig where
  token : Option String
  accessKey : Option String
  secretKey : Option String
  timeout : Option Nat
  endpoint : Option String
deriving DecidableEq

/-- The client's resolved configuration (`this.config` after the constructor
applied defaults). The credential fields are stored unchanged, so they can
still be `undefined`. -/
structure ResolvedConfig where
  endpoint : String
  timeout : Nat
  token : Option String
  accessKey : Option String
  secretKey : Option String
deriving DecidableEq

/-- `UthoError` from `types.ts`: the normalized error shape
`{ code, message, statusCode, requestId? }`. -/
structure UthoError where
  code : String
  message : String
  statusCode : Nat
  requestId : Option String
deriving DecidableEq

/-- `ObjectStorage` from `types.ts`: bucket details as returned by the API. -/
structure ObjectStorage where
  name : String
  dcslug : String
  planid : String
  size : String
  billing : String
  status : String
  created_at : String
deriving DecidableEq

/-- A browser-style `File` object: opaque to the client, which passes it to
the form body unchanged. -/
structure JsFile where
  name : String
  bytes : List Nat
  mime : String
deriving DecidableEq

/-- The runtime value passed to `uploadFile` as its `file` argument. The
TypeScript signature says `File | Buffer`, but the types are erased at
runtime, so any other JavaScript value can arrive; `other` stands for such a
value (carried as its string image). -/
inductive UploadContent where
  | buffer (bytes : List Nat)
  | fileObj (f : JsFile)
  | other (v : String)
deriving DecidableEq

/-- A value appended to a multipart form body. A Node `Buffer` is appended
together with an explicit filename and content type; a `File` or any other
value is appended bare. -/
inductive FormValue where
  | bufferVal (bytes : List Nat) (filename : String) (contentType : String)
  | fileVal (f : JsFile)
  | strVal (s : String)
  | otherVal (v : String)
deriving DecidableEq

/-- One `formData.append(field, value)` call. -/
structure FormPart where
  field : String
  value : FormValue
deriving DecidableEq

/-- The HTTP request `uploadFile` hands to the transport: URL, ordered
multipart body, and the merged header map. -/
structure UploadRequest where
  url : String
  body : List FormPart
  headers : List (String × String)
deriving DecidableEq

/-- Outcome of calling `uploadFile`: either an upload request is dispatched,
or (per the specification's taxonomy) the call fails fast with
`InvalidArgumentError`. The source contains no code path that produces the
second constructor; it exists so that the specification's failure clause can
be stated. -/
inductive UploadOutcome where
  | request (r : UploadRequest)
  | invalidArgument (msg : String)
deriving DecidableEq

/-- Whether an `uploadFile` outcome dispatches a request. -/
def UploadOutcome.isRequest : UploadOutcome → Bool
  | .request _ => true
  | .invalidArgument _ => false

/-- The `content` argument of `putObject`: `string | Buffer | File`. -/
inductive PutContent where
  | str (s : String)
  | buf (bytes : List Nat)
  | fileObj (f : JsFile)
deriving DecidableEq

/-- `Buffer.from(content, 'utf8')`: the UTF-8 bytes of a string. -/
def bufferFromUtf8 (s : String) : List Nat :=
  s.toUTF8.toList.map UInt8.toNat

/-- The error-response body `error.response.data`, when it is an object. -/
structure ErrBody where
  code : Option String
  message : Option String
deriving DecidableEq

/-- The HTTP response attached to a transport error, when one was received. -/
structure ErrResponse where
  status : Nat
  data : Option ErrBody
  headers : Option (List (String × String))
deriving DecidableEq

/-- A transport-library error as seen by the response interceptor: an
optional HTTP response plus the transport's own `code` and `message`. -/
structure TransportError where
  response : Option ErrResponse
  code : Option String
  message : Option String
deriving DecidableEq

/-- The constructor's validation guard (`utho-client.ts`, lines 262-266):
authentication is missing when `config.token` is falsy and the key pair is
incomplete. -/
def authMissing (config : UthoConfig) : Bool :=
  !truthyS config.token && (!truthyS config.accessKey || !truthyS config.secretKey)

/-- The default API endpoint. -/
def defaultEndpoint : String := "https://api.utho.com/v2"

/-- The `UthoObjectStorage` constructor (`utho-client.ts`, lines 260-275):
throws when authentication is missing, otherwise stores the configuration
with defaults applied via `||`. -/
def mkClient (config : UthoConfig) : Except String ResolvedConfig :=
  if authMissing config then
    .error "Authentication required"
  else
    .ok { endpoint := jsOrStr config.endpoint defaultEndpoint,
          timeout := jsOrNat config.timeout 30000,
          token := config.token,
          accessKey := config.accessKey,
          secretKey := config.secretKey }

/-- Whether client construction succeeds. -/
def mkClientOk (config : UthoConfig) : Bool :=
  match mkClient config with
  | .ok _ => true
  | .error _ => false

/-- The credential branch shared by the constructor (lines 289-296) and
`uploadFile` (lines 514-519): a Bearer `Authorization` header when the token
is truthy, else the `X-Access-Key`/`X-Secret-Key` pair when both keys are
truthy, else nothing. -/
def credentialHeaders (cfg : ResolvedConfig) : List (String × String) :=
  if truthyS cfg.token then
    [("Authorization", "Bearer " ++ cfg.token.getD "")]
  else if truthyS cfg.accessKey && truthyS cfg.secretKey then
    [("X-Access-Key", cfg.accessKey.getD ""), ("X-Secret-Key", cfg.secretKey.getD "")]
  else
    []

/-- The constructor's `authHeaders` (lines 284-296): default `Content-Type`
and `User-Agent` entries followed by the credential headers. -/
def clientAuthHeaders (cfg : ResolvedConfig) : List (String × String) :=
  [("Content-Type", "application/json"),
   ("User-Agent", "@utho/object-storage/1.0.0")] ++ credentialHeaders cfg

/-- `formData.getHeaders()` from the `form-data` library: a single lowercase
`content-type` entry carrying the multipart boundary. The boundary itself is
chosen by the library, so it is a parameter of the embedding. -/
def formDataGetHeaders (boundary : String) : List (String × String) :=
  [("content-type", "multipart/form-data; boundary=" ++ boundary)]

/-- The upload endpoint path template. -/
def uploadUrl (dcslug name : String) : String :=
  "/objectstorage/" ++ dcslug ++ "/bucket/" ++ name ++ "/upload/"

/-- `uploadFile` (`utho-client.ts`, lines 486-529): split the combined path
on `/`, pop the last segment as the filename (substituting `'file'` when it
is falsy), join the remaining segments as the directory path, append the
file part (with filename and `application/octet-stream` content type for a
`Buffer`, bare otherwise), append a `path` part only when the directory
path is truthy, and merge the credential headers with the form-data headers
(the later, body-specific entries winning under object-spread lookup). -/
def uploadFileRequest (cfg : ResolvedConfig) (dcslug name : String)
    (file : UploadContent) (path : String) (boundary : String) : UploadRequest :=
  let pathParts := splitOnChar '/' path.data
  let popped := pathParts.getLastD []
  let filename := if popped = [] then "file" else String.mk popped
  let directoryPath := String.mk (intercalateChar '/' pathParts.dropLast)
  let fileParts : List FormPart :=
    match file with
    | .buffer bytes => [⟨"file", .bufferVal bytes filename "application/octet-stream"⟩]
    | .fileObj f => [⟨"file", .fileVal f⟩]
    | .other v => [⟨"file", .otherVal v⟩]
  let pathParts' : List FormPart :=
    if directoryPath = "" then [] else [⟨"path", .strVal directoryPath⟩]
  { url := uploadUrl dcslug name,
    body := fileParts ++ pathParts',
    headers := credentialHeaders cfg ++ formDataGetHeaders boundary }

/-- The observable outcome of `uploadFile`: the source always reaches the
dispatch call, so the outcome is always a request. -/
def uploadFile (cfg : ResolvedConfig) (dcslug name : String)
    (file : UploadContent) (path : String) (boundary : String) : UploadOutcome :=
  .request (uploadFileRequest cfg dcslug name file path boundary)

/-- `putObject` (`utho-client.ts`, lines 617-635): join the path and the
filename (skipping the join when the path is falsy), convert string content
to a UTF-8 `Buffer`, and delegate to `uploadFile`. -/
def putObjectRequest (cfg : ResolvedConfig) (dcslug name filename : String)
    (content : PutContent) (path : String) (boundary : String) : UploadRequest :=
  let filePath := if path = "" then filename else path ++ "/" ++ filename
  let fileToUpload : UploadContent :=
    match content with
    | .str s => .buffer (bufferFromUtf8 s)
    | .buf b => .buffer b
    | .fileObj f => .fileObj f
  uploadFileRequest cfg dcslug name fileToUpload filePath boundary

/-- `bucketExists` (`utho-client.ts`, lines 597-607): call the details
endpoint (its outcome, already normalized by the interceptor, is a
parameter), return `true` on success, `false` when the normalized error has
`statusCode === 404`, and rethrow the error unchanged otherwise. -/
def bucketExists (dcslug name : String)
    (details : Except UthoError ObjectStorage) : Except UthoError Bool :=
  match details with
  | .ok _ => .ok true
  | .error error => if error.statusCode = 404 then .ok false else .error error

/-- The download-link URL template of `getSharableUrl` (line 549), with the
`expire` query value as its last argument. -/
def downloadUrl (dcslug name filename expire : String) : String :=
  "/objectstorage/" ++ dcslug ++ "/bucket/" ++ name ++ "/download?path=" ++
    filename ++ "&expire=" ++ expire

/-- `getSharableUrl` (`utho-client.ts`, lines 539-549): translate the literal
duration `'never'` to `'1y'` and interpolate the result into the download
URL; this is the URL of the GET request it issues. -/
def getSharableUrlReq (dcslug name filename expiryTime : String) : String :=
  let actualExpiry := if expiryTime = "never" then "1y" else expiryTime
  downloadUrl dcslug name filename actualExpiry

/-- `handleError` (`utho-client.ts`, lines 656-665): normalize any transport
error into the `UthoError` shape using JavaScript `||` fallbacks and optional
chaining. The response interceptor (lines 305-310) throws exactly this value
for every failed call, so this is the only error shape a caller can see. -/
def handleError (error : TransportError) : UthoError :=
  { code := jsOrStr (error.response.bind fun r => r.data.bind ErrBody.code)
      (jsOrStr error.code "UnknownError"),
    message := jsOrStr (error.response.bind fun r => r.data.bind ErrBody.message)
      (jsOrStr error.message "An unknown error occurred"),
    statusCode := jsOrNat (error.response.map ErrResponse.status) 500,
    requestId := error.response.bind fun r =>
      r.headers.bind fun hs => objGet hs "x-request-id" }

/-- `error.response?.data?.code`. -/
def respBodyCode (e : TransportError) : Option String :=
  e.response.bind fun r => r.data.bind ErrBody.code

/-- `error.response?.data?.message`. -/
def respBodyMessage (e : TransportError) : Option String :=
  e.response.bind fun r => r.data.bind ErrBody.message

/-- Specification-side: the substring of `s` after the last `'/'` (the whole
string when `s` contains no `'/'`). -/
def strAfterLastSlash (s : String) : String :=
  String.mk (afterLast '/' s.data)

/-- Specification-side: the substring of `s` before the last `'/'` (empty
when `s` contains no `'/'`). -/
def strBeforeLastSlash (s : String) : String :=
  String.mk (beforeLast '/' s.data)

/-- The filenames attached to `file`-named buffer parts of an upload body,
in order. -/
def filePartFilenames (r : UploadRequest) : List String :=
  r.body.filterMap fun p =>
    if p.field = "file" then
      match p.value with
      | .bufferVal _ fn _ => some fn
      | _ => none
    else none

/-- The values of the `path`-named string parts of an upload body, in
order. -/
def pathPartValues (r : UploadRequest) : List String :=
  r.body.filterMap fun p =>
    if p.field = "path" then
      match p.value with
      | .strVal s => some s
      | _ => none
    else none

/-! ## Shared helper lemmas -/

theorem objGet_append_right {l₂ : List (String × String)} {k v : String}
    (h : objGet l₂ k = some v) (l₁ : List (String × String)) :
    objGet (l₁ ++ l₂) k = some v := by
  induction l₁ with
  | nil => simpa using h
  | cons p t ih => simp [objGet, ih]

theorem objGet_append_left {l₂ : List (String × String)} {k : String}
    (h : objGet l₂ k = none) (l₁ : List (String × String)) :
    objGet (l₁ ++ l₂) k = objGet l₁ k := by
  induction l₁ with
  | nil => simpa using h
  | cons p t ih => simp [objGet, ih]

theorem getHeaderCI_append_right {l₂ : List (String × String)} {k v : String}
    (h : getHeaderCI l₂ k = some v) (l₁ : List (String × String)) :
    getHeaderCI (l₁ ++ l₂) k = some v := by
  induction l₁ with
  | nil => simpa using h
  | cons p t ih => simp [getHeaderCI, ih]

theorem jsOrStr_truthy {a : Option String} (h : truthyS a = true) (d : String) :
    some (jsOrStr a d) = a := by
  cases a with
  | none => simp [truthyS] at h
  | some s =>
    by_cases hs : s = ""
    · subst hs; simp [truthyS] at h
    · simp [jsOrStr, hs]

theorem jsOrStr_falsy {a : Option String} (h : truthyS a = false) (d : String) :
    jsOrStr a d = d := by
  cases a with
  | none => rfl
  | some s =>
    by_cases hs : s = ""
    · subst hs; simp [jsOrStr]
    · simp [truthyS, hs] at h

/-! ## Concrete fixtures used by witnesses and counterexamples -/

/-- A resolved configuration with Bearer-token credentials. -/
def cfgBearer : ResolvedConfig :=
  { endpoint := defaultEndpoint, timeout := 30000,
    token := some "tok", accessKey := none, secretKey := none }

/-- A resolved configuration with key-pair credentials. -/
def cfgKeys : ResolvedConfig :=
  { endpoint := defaultEndpoint, timeout := 30000,
    token := none, accessKey := some "AK", secretKey := some "SK" }

/-- A sample bucket-details payload. -/
def bucketSample : ObjectStorage :=
  { name := "bkt", dcslug := "innoida", planid := "p1", size := "40",
    billing := "monthly", status := "active", created_at := "2024-01-01" }

/-- A normalized 404 error. -/
def err404 : UthoError :=
  { code := "NotFound", message := "missing", statusCode := 404, requestId := none }

/-- A normalized 500 error. -/
def err500 : UthoError :=
  { code := "ServerError", message := "boom", statusCode := 500, requestId := none }

/-- The HTTP error response attached to the sample transport error. -/
def tErr1Resp : ErrResponse :=
  ⟨404, some ⟨some "NotFound", some "missing"⟩, some [("x-request-id", "r1")]⟩

/-- A transport error with a full HTTP error response attached. -/
def tErr1 : TransportError := ⟨some tErr1Resp, some "ECONN", some "boom"⟩

/-- A bare transport error with no response and no own code or message. -/
def tErr2 : TransportError := ⟨none, none, none⟩

/-- A configuration supplying only a lone access key. -/
def cfgLoneKey : UthoConfig := ⟨none, some "AK", none, none, none⟩

/-- A configuration supplying only a Bearer token. -/
def cfgTokOnly : UthoConfig := ⟨some "tok", none, none, none, none⟩

/-! ## Claim theorems -/

/-- C1, counterexample: the claim says the file part's name is exactly the
substring after the last `'/'` for every combined path, but for the path
`"docs/"` that substring is empty while the code names the file part
`"file"`. -/
theorem uploadFile_objectName_claim_counterexample :
    filePartFilenames (uploadFileRequest cfgBearer "innoida" "bkt"
        (.buffer [104, 105]) "docs/" "BB") ≠ [strAfterLastSlash "docs/"] := by
  decide

/-- C1, amended: for every combined path, the multipart body carries a
`path` part exactly once with the substring before the last `'/'` as value
when that substring is non-empty and no `path` part otherwise; and whenever
the substring after the last `'/'` is non-empty, the file part is named
exactly that substring. -/
theorem uploadFile_path_split_amended (cfg : ResolvedConfig) (dcslug name : String)
    (bytes : List Nat) (path boundary : String) :
    pathPartValues (uploadFileRequest cfg dcslug name (.buffer bytes) path boundary) =
      (if strBeforeLastSlash path = "" then [] else [strBeforeLastSlash path]) ∧
    (strAfterLastSlash path ≠ "" →
      filePartFilenames (uploadFileRequest cfg dcslug name (.buffer bytes) path boundary) =
        [strAfterLastSlash path]) := by
  have hdir : String.mk (intercalateChar '/' (splitOnChar '/' path.data).dropLast) =
      strBeforeLastSlash path := by
    rw [intercalate_dropLast_splitOnChar]; rfl
  have hlast : (splitOnChar '/' path.data).getLastD [] = afterLast '/' path.data :=
    getLastD_splitOnChar '/' path.data
  constructor
  · simp only [uploadFileRequest, pathPartValues, hdir, hlast]
    by_cases hb : strBeforeLastSlash path = "" <;> simp [hb]
  · intro h
    have hne : afterLast '/' path.data ≠ [] := by
      intro h0
      apply h
      show String.mk (afterLast '/' path.data) = ""
      rw [h0]
    simp only [uploadFileRequest, filePartFilenames, hdir, hlast]
    rw [if_neg hne]
    by_cases hb : strBeforeLastSlash path = "" <;> simp [hb, strAfterLastSlash]

/-- C1, witness: for the path `"documents/file.txt"` the body has one
`path` part with value `"documents"` and the file part is named
`"file.txt"`. -/
theorem uploadFile_path_split_amended_witness :
    pathPartValues (uploadFileRequest cfgBearer "innoida" "bkt" (.buffer [104, 105])
        "documents/file.txt" "BB") = ["documents"] ∧
    filePartFilenames (uploadFileRequest cfgBearer "innoida" "bkt" (.buffer [104, 105])
        "documents/file.txt" "BB") = ["file.txt"] := by
  have h := uploadFile_path_split_amended cfgBearer "innoida" "bkt" [104, 105]
    "documents/file.txt" "BB"
  refine ⟨?_, ?_⟩
  · rw [h.1]; decide
  · rw [h.2 (by decide)]; decide

/-- C2: `putObject` with string content and a non-empty path issues exactly
the upload request of `uploadFile` on the UTF-8 buffer of the content and
the combined path `path ++ "/" ++ filename`; with an empty path it issues
the request of `uploadFile` on the bare filename. -/
theorem putObject_refines_uploadFile (cfg : ResolvedConfig)
    (dcslug bucket filename content path boundary : String) (h : path ≠ "") :
    putObjectRequest cfg dcslug bucket filename (.str content) path boundary =
      uploadFileRequest cfg dcslug bucket (.buffer (bufferFromUtf8 content))
        (path ++ "/" ++ filename) boundary ∧
    putObjectRequest cfg dcslug bucket filename (.str content) "" boundary =
      uploadFileRequest cfg dcslug bucket (.buffer (bufferFromUtf8 content))
        filename boundary := by
  constructor
  · simp [putObjectRequest, h]
  · rfl

/-- C2, witness: the equivalence at `putObject("innoida", "bkt",
"notes.txt", "hi there", "docs")`. -/
theorem putObject_refines_uploadFile_witness :
    putObjectRequest cfgBearer "innoida" "bkt" "notes.txt" (.str "hi there") "docs" "BB" =
      uploadFileRequest cfgBearer "innoida" "bkt" (.buffer (bufferFromUtf8 "hi there"))
        ("docs" ++ "/" ++ "notes.txt") "BB" :=
  (putObject_refines_uploadFile cfgBearer "innoida" "bkt" "notes.txt" "hi there"
    "docs" "BB" (by decide)).1

/-- C3, counterexample: the claim says `uploadFile` fails with
`InvalidArgumentError` before any network request when the content is
neither a buffer nor a file handle; in fact for the non-buffer, non-file
runtime value `"42"` the call still dispatches a request (the source has no
runtime validation branch at all). -/
theorem uploadFile_no_invalidArgument_counterexample :
    (uploadFile cfgBearer "innoida" "bkt" (.other "42") "hello.txt" "BB").isRequest =
      true := rfl

/-- C3, amended: `uploadFile` performs no runtime validation of its content
argument: a value that is neither a buffer nor a file handle is appended to
the multipart body unchanged as the `file` part and the upload request is
dispatched; no failure outcome is produced. -/
theorem uploadFile_no_runtime_validation (cfg : ResolvedConfig)
    (dcslug name v path boundary : String) :
    (uploadFile cfg dcslug name (.other v) path boundary).isRequest = true ∧
    (uploadFileRequest cfg dcslug name (.other v) path boundary).body.head? =
      some ⟨"file", .otherVal v⟩ := by
  refine ⟨rfl, ?_⟩
  simp [uploadFileRequest]

/-- C4: `bucketExists` returns `.ok false` exactly when the details call
fails with a normalized error whose `statusCode` is 404, returns `.ok true`
whenever the details call succeeds, and re-raises the error unchanged for
every other `statusCode`. -/
theorem bucketExists_maps_404_to_false (dcslug name : String)
    (details : Except UthoError ObjectStorage) :
    (bucketExists dcslug name details = .ok false ↔
      ∃ e, details = .error e ∧ e.statusCode = 404) ∧
    (∀ b, details = .ok b → bucketExists dcslug name details = .ok true) ∧
    (∀ e, details = .error e → e.statusCode ≠ 404 →
      bucketExists dcslug name details = .error e) := by
  refine ⟨?_, ?_, ?_⟩
  · cases details with
    | ok b => simp [bucketExists]
    | error e =>
      by_cases h : e.statusCode = 404
      · simp [bucketExists, h]
      · simp [bucketExists, h]
  · intro b hb; subst hb; rfl
  · intro e he h; subst he; simp [bucketExists, h]

/-- C4, witness: a 404 details failure yields `false`, a success yields
`true`, and a 500 failure is re-raised unchanged. -/
theorem bucketExists_maps_404_to_false_witness :
    bucketExists "innoida" "bkt" (.error err404) = .ok false ∧
    bucketExists "innoida" "bkt" (.ok bucketSample) = .ok true ∧
    bucketExists "innoida" "bkt" (.error err500) = .error err500 := by
  refine ⟨?_, ?_, ?_⟩
  · exact (bucketExists_maps_404_to_false "innoida" "bkt" (.error err404)).1.mpr
      ⟨err404, rfl, rfl⟩
  · exact (bucketExists_maps_404_to_false "innoida" "bkt" (.ok bucketSample)).2.1
      bucketSample rfl
  · exact (bucketExists_maps_404_to_false "innoida" "bkt" (.error err500)).2.2
      err500 rfl (by decide)

/-- C5: client construction succeeds if and only if a (truthy) Bearer token
or a complete (truthy) accessKey/secretKey pair is supplied; a lone key does
not count. -/
theorem construction_fails_iff_no_credentials (config : UthoConfig) :
    mkClientOk config = true ↔
      (truthyS config.token = true ∨
        (truthyS config.accessKey = true ∧ truthyS config.secretKey = true)) := by
  unfold mkClientOk mkClient authMissing
  by_cases ht : truthyS config.token <;>
    by_cases ha : truthyS config.accessKey <;>
      by_cases hs : truthyS config.secretKey <;>
        simp [ht, ha, hs]

/-- C5, witness: a lone accessKey fails construction; a Bearer token alone
succeeds. -/
theorem construction_fails_iff_no_credentials_witness :
    ¬ mkClientOk cfgLoneKey = true ∧ mkClientOk cfgTokOnly = true := by
  constructor
  · intro h
    have h2 := (construction_fails_iff_no_credentials cfgLoneKey).mp h
    rcases h2 with h2 | ⟨h2, h3⟩
    · simp [cfgLoneKey, truthyS] at h2
    · simp [cfgLoneKey, truthyS] at h3
  · exact (construction_fails_iff_no_credentials cfgTokOnly).mpr (Or.inl (by decide))

/-- C6: with a truthy Bearer token the derived client headers contain
`Authorization` and never `X-Access-Key`/`X-Secret-Key` (so when both
credential sets are supplied the Bearer token wins); with no truthy token
and a truthy key pair they contain the two key headers and never
`Authorization`. -/
theorem auth_headers_mode_exclusive (cfg : ResolvedConfig) :
    (truthyS cfg.token = true →
      hasHeader (clientAuthHeaders cfg) "Authorization" = true ∧
      hasHeader (clientAuthHeaders cfg) "X-Access-Key" = false ∧
      hasHeader (clientAuthHeaders cfg) "X-Secret-Key" = false) ∧
    (truthyS cfg.token = false → truthyS cfg.accessKey = true →
      truthyS cfg.secretKey = true →
      hasHeader (clientAuthHeaders cfg) "X-Access-Key" = true ∧
      hasHeader (clientAuthHeaders cfg) "X-Secret-Key" = true ∧
      hasHeader (clientAuthHeaders cfg) "Authorization" = false) := by
  constructor
  · intro ht
    simp [clientAuthHeaders, credentialHeaders, hasHeader, ht]
  · intro ht ha hs
    simp [clientAuthHeaders, credentialHeaders, hasHeader, ht, ha, hs]

/-- C6, witness: the exclusivity at a Bearer-only and a key-pair-only
configuration. -/
theorem auth_headers_mode_exclusive_witness :
    (hasHeader (clientAuthHeaders cfgBearer) "Authorization" = true ∧
     hasHeader (clientAuthHeaders cfgBearer) "X-Access-Key" = false ∧
     hasHeader (clientAuthHeaders cfgBearer) "X-Secret-Key" = false) ∧
    (hasHeader (clientAuthHeaders cfgKeys) "X-Access-Key" = true ∧
     hasHeader (clientAuthHeaders cfgKeys) "X-Secret-Key" = true ∧
     hasHeader (clientAuthHeaders cfgKeys) "Authorization" = false) :=
  ⟨(auth_headers_mode_exclusive cfgBearer).1 (by decide),
   (auth_headers_mode_exclusive cfgKeys).2 (by decide) (by decide) (by decide)⟩

/-- C7: `getSharableUrl` called with duration `'never'` issues the request
whose `expire` query value is `'1y'` (and that request differs from the one
with `expire=never`); every other duration is passed through unchanged. -/
theorem sharable_url_never_becomes_1y (dcslug name filename : String) :
    getSharableUrlReq dcslug name filename "never" =
      downloadUrl dcslug name filename "1y" ∧
    getSharableUrlReq dcslug name filename "never" ≠
      downloadUrl dcslug name filename "never" ∧
    ∀ d : String, d ≠ "never" →
      getSharableUrlReq dcslug name filename d = downloadUrl dcslug name filename d := by
  refine ⟨rfl, ?_, ?_⟩
  · intro hcontra
    have h1 : downloadUrl dcslug name filename "1y" =
        downloadUrl dcslug name filename "never" := hcontra
    unfold downloadUrl at h1
    have h2 := congrArg String.data h1
    simp only [String.data_append] at h2
    have h3 := List.append_cancel_left h2
    exact absurd h3 (by decide)
  · intro d hd
    unfold getSharableUrlReq
    rw [if_neg hd]

/-- C7, witness: the translation at concrete arguments, including the
pass-through of `'1h'`. -/
theorem sharable_url_never_becomes_1y_witness :
    getSharableUrlReq "innoida" "bkt" "f.txt" "never" =
      downloadUrl "innoida" "bkt" "f.txt" "1y" ∧
    getSharableUrlReq "innoida" "bkt" "f.txt" "never" ≠
      downloadUrl "innoida" "bkt" "f.txt" "never" ∧
    getSharableUrlReq "innoida" "bkt" "f.txt" "1h" =
      downloadUrl "innoida" "bkt" "f.txt" "1h" := by
  have h := sharable_url_never_becomes_1y "innoida" "bkt" "f.txt"
  exact ⟨h.1, h.2.1, h.2.2 "1h" (by decide)⟩

/-- C8: in the dispatched upload request the header map is the spread-merge
of the credential headers with the form-data headers: every form-data
binding wins the lookup (in particular the case-insensitive `Content-Type`
is always the multipart boundary header), and every credential header is
still present in the merged map. -/
theorem upload_headers_body_overrides_auth (cfg : ResolvedConfig)
    (dcslug name : String) (file : UploadContent) (path boundary : String) :
    (∀ k v, (k, v) ∈ formDataGetHeaders boundary →
      objGet (uploadFileRequest cfg dcslug name file path boundary).headers k = some v) ∧
    (∀ k v, (k, v) ∈ credentialHeaders cfg →
      objGet (uploadFileRequest cfg dcslug name file path boundary).headers k = some v) ∧
    getHeaderCI (uploadFileRequest cfg dcslug name file path boundary).headers
        "Content-Type" = some ("multipart/form-data; boundary=" ++ boundary) := by
  have hh : (uploadFileRequest cfg dcslug name file path boundary).headers =
      credentialHeaders cfg ++ formDataGetHeaders boundary := rfl
  refine ⟨?_, ?_, ?_⟩
  · intro k v hm
    rw [hh]
    simp only [formDataGetHeaders, List.mem_singleton, Prod.mk.injEq] at hm
    obtain ⟨rfl, rfl⟩ := hm
    exact objGet_append_right (by simp [objGet, formDataGetHeaders]) _
  · intro k v hm
    rw [hh]
    unfold credentialHeaders at hm ⊢
    by_cases ht : truthyS cfg.token
    · rw [if_pos ht] at hm ⊢
      simp only [List.mem_singleton, Prod.mk.injEq] at hm
      obtain ⟨rfl, rfl⟩ := hm
      rw [objGet_append_left (by simp [objGet, formDataGetHeaders]) _]
      simp [objGet]
    · rw [if_neg ht] at hm ⊢
      by_cases hk : truthyS cfg.accessKey && truthyS cfg.secretKey
      · rw [if_pos hk] at hm ⊢
        simp only [List.mem_cons, List.mem_singleton, Prod.mk.injEq] at hm
        rcases hm with ⟨rfl, rfl⟩ | ⟨rfl, rfl⟩ | h0
        · rw [objGet_append_left (by simp [objGet, formDataGetHeaders]) _]
          simp [objGet]
        · rw [objGet_append_left (by simp [objGet, formDataGetHeaders]) _]
          simp [objGet]
        · cases h0
      · rw [if_neg hk] at hm
        cases hm
  · rw [hh]
    refine getHeaderCI_append_right ?_ _
    simp only [formDataGetHeaders, getHeaderCI]
    rw [if_pos (by decide : lowerStr "content-type" = lowerStr "Content-Type")]

/-- C8, witness: for a Bearer client the merged upload headers answer the
`content-type` lookup with the boundary header, still contain
`Authorization`, and answer the case-insensitive `Content-Type` lookup with
the boundary header. -/
theorem upload_headers_body_overrides_auth_witness :
    objGet (uploadFileRequest cfgBearer "innoida" "bkt" (.buffer [104]) "a.txt"
        "BB").headers "content-type" = some ("multipart/form-data; boundary=" ++ "BB") ∧
    objGet (uploadFileRequest cfgBearer "innoida" "bkt" (.buffer [104]) "a.txt"
        "BB").headers "Authorization" = some ("Bearer " ++ "tok") ∧
    getHeaderCI (uploadFileRequest cfgBearer "innoida" "bkt" (.buffer [104]) "a.txt"
        "BB").headers "Content-Type" = some ("multipart/form-data; boundary=" ++ "BB") := by
  have h := upload_headers_body_overrides_auth cfgBearer "innoida" "bkt"
    (.buffer [104]) "a.txt" "BB"
  exact ⟨h.1 "content-type" ("multipart/form-data; boundary=" ++ "BB") (by decide),
    h.2.1 "Authorization" ("Bearer " ++ "tok") (by decide), h.2.2⟩

/-- C9: every failed remote call surfaces as the normalized
`{ code, message, statusCode, requestId? }` shape produced by `handleError`:
`code` comes from the response body's code, else the transport error code,
else `"UnknownError"`; `message` falls back to `"An unknown error
occurred"`; `statusCode` comes from the HTTP response status, else 500; and
`requestId` is read from the `x-request-id` response header. -/
theorem errors_normalized_shape (e : TransportError) :
    (truthyS (respBodyCode e) = true → some (handleError e).code = respBodyCode e) ∧
    (truthyS (respBodyCode e) = false → truthyS e.code = true →
      some (handleError e).code = e.code) ∧
    (truthyS (respBodyCode e) = false → truthyS e.code = false →
      (handleError e).code = "UnknownError") ∧
    (truthyS (respBodyMessage e) = true →
      some (handleError e).message = respBodyMessage e) ∧
    (truthyS (respBodyMessage e) = false → truthyS e.message = true →
      some (handleError e).message = e.message) ∧
    (truthyS (respBodyMessage e) = false → truthyS e.message = false →
      (handleError e).message = "An unknown error occurred") ∧
    (∀ r, e.response = some r → r.status ≠ 0 → (handleError e).statusCode = r.status) ∧
    (e.response = none → (handleError e).statusCode = 500) ∧
    (handleError e).requestId =
      (e.response.bind fun r => r.headers.bind fun hs => objGet hs "x-request-id") := by
  refine ⟨?_, ?_, ?_, ?_, ?_, ?_, ?_, ?_, rfl⟩
  · intro h; exact jsOrStr_truthy h _
  · intro h1 h2
    show some (jsOrStr (respBodyCode e) (jsOrStr e.code "UnknownError")) = e.code
    rw [jsOrStr_falsy h1]
    exact jsOrStr_truthy h2 _
  · intro h1 h2
    show jsOrStr (respBodyCode e) (jsOrStr e.code "UnknownError") = "UnknownError"
    rw [jsOrStr_falsy h1, jsOrStr_falsy h2]
  · intro h; exact jsOrStr_truthy h _
  · intro h1 h2
    show some (jsOrStr (respBodyMessage e)
      (jsOrStr e.message "An unknown error occurred")) = e.message
    rw [jsOrStr_falsy h1]
    exact jsOrStr_truthy h2 _
  · intro h1 h2
    show jsOrStr (respBodyMessage e) (jsOrStr e.message "An unknown error occurred") =
      "An unknown error occurred"
    rw [jsOrStr_falsy h1, jsOrStr_falsy h2]
  · intro r hr h0
    show jsOrNat (e.response.map ErrResponse.status) 500 = r.status
    rw [hr]
    simp [jsOrNat, h0]
  · intro hr
    show jsOrNat (e.response.map ErrResponse.status) 500 = 500
    rw [hr]
    rfl

/-- C9, witness: a failure with a response body keeps the body's code and
the HTTP status; a bare transport failure falls back to `"UnknownError"`
and 500. -/
theorem errors_normalized_shape_witness :
    some (handleError tErr1).code = respBodyCode tErr1 ∧
    (handleError tErr1).statusCode = 404 ∧
    (handleError tErr2).code = "UnknownError" ∧
    (handleError tErr2).statusCode = 500 := by
  refine ⟨(errors_normalized_shape tErr1).1 (by decide), ?_, ?_, ?_⟩
  · exact (errors_normalized_shape tErr1).2.2.2.2.2.2.1 tErr1Resp rfl (by decide)
  · exact (errors_normalized_shape tErr2).2.2.1 (by decide) (by decide)
  · exact (errors_normalized_shape tErr2).2.2.2.2.2.2.2.1 rfl

/-- C10: for every combined path that is empty or ends with `'/'`, the file
part is named with the literal `"file"` while the directory path (and hence
the `path` part, present exactly when non-empty) is still everything before
the final `'/'`. -/
theorem uploadFile_empty_objectName_fallback (cfg : ResolvedConfig)
    (dcslug name : String) (bytes : List Nat) (path boundary : String)
    (h : path.data = [] ∨ path.data.getLast? = some '/') :
    filePartFilenames (uploadFileRequest cfg dcslug name (.buffer bytes) path boundary) =
      ["file"] ∧
    pathPartValues (uploadFileRequest cfg dcslug name (.buffer bytes) path boundary) =
      (if strBeforeLastSlash path = "" then [] else [strBeforeLastSlash path]) := by
  have hdir : String.mk (intercalateChar '/' (splitOnChar '/' path.data).dropLast) =
      strBeforeLastSlash path := by
    rw [intercalate_dropLast_splitOnChar]; rfl
  have hlast : (splitOnChar '/' path.data).getLastD [] = afterLast '/' path.data :=
    getLastD_splitOnChar '/' path.data
  have hnil : afterLast '/' path.data = [] := (afterLast_eq_nil_iff '/' path.data).mpr h
  constructor
  · simp only [uploadFileRequest, filePartFilenames, hdir, hlast, hnil]
    by_cases hb : strBeforeLastSlash path = "" <;> simp [hb]
  · simp only [uploadFileRequest, pathPartValues, hdir, hlast]
    by_cases hb : strBeforeLastSlash path = "" <;> simp [hb]

/-- C10, witness: uploading with path `"docs/"` sends file part `"file"`
and path part `"docs"`; uploading with path `""` sends file part `"file"`
and no path part. -/
theorem uploadFile_empty_objectName_fallback_witness :
    (filePartFilenames (uploadFileRequest cfgBearer "innoida" "bkt" (.buffer [104])
        "docs/" "BB") = ["file"] ∧
     pathPartValues (uploadFileRequest cfgBearer "innoida" "bkt" (.buffer [104])
        "docs/" "BB") = ["docs"]) ∧
    (filePartFilenames (uploadFileRequest cfgBearer "innoida" "bkt" (.buffer [104])
        "" "BB") = ["file"] ∧
     pathPartValues (uploadFileRequest cfgBearer "innoida" "bkt" (.buffer [104])
        "" "BB") = []) := by
  have h1 := uploadFile_empty_objectName_fallback cfgBearer "innoida" "bkt" [104]
    "docs/" "BB" (Or.inr (by decide))
  have h2 := uploadFile_empty_objectName_fallback cfgBearer "innoida" "bkt" [104]
    "" "BB" (Or.inl rfl)
  refine ⟨⟨h1.1, ?_⟩, ⟨h2.1, ?_⟩⟩
  · rw [h1.2]; decide
  · rw [h2.2]; decide

end UthoOS
